import Mathlib

/-!
Verification development for the metro-eval HPTDC decoder and event sorter.

The definitions below are shallow embeddings of the Python source files
`src/metro_eval/metro2hdf/_process_hptdc.py` and
`src/metro_eval/data/sort_events.py`.  Machine integers are modelled as
`Nat`/`Int` with explicit truncation where the source casts; byte streams
are `List Nat` (each element one byte value); fallible code returns
`Option`/`Except`.
-/

namespace MetroEval

/-! ## Basic byte and integer helpers -/

/-- Bytes `pos .. pos+n-1` of a byte list, possibly short near the end,
exactly like a `read` on a file positioned at `pos`. -/
def readBytes (f : List Nat) (pos n : Nat) : List Nat :=
  (f.drop pos).take n

/-- Little-endian byte list to unsigned value. -/
def leNat : List Nat → Nat
  | [] => 0
  | b :: r => b + 256 * leNat r

/-- Reinterpret an unsigned value of `n` bytes as a signed
two-complement integer, as `struct.unpack` with a signed format does. -/
def toSigned (n : Nat) (v : Nat) : Int :=
  if 2 * v < 2 ^ (8 * n) then (v : Int) else (v : Int) - 2 ^ (8 * n)

/-- Read a signed little-endian integer of `n` bytes at `pos`. -/
def readIntD (f : List Nat) (pos n : Nat) : Int :=
  toSigned n (leNat (readBytes f pos n))

/-- Signed reinterpretation of a 32-bit unsigned word
(`astype("i4")` on a `u4` array in the source). -/
def asInt32 (v : Nat) : Int :=
  if v < 2 ^ 31 then (v : Int) else (v : Int) - 2 ^ 32

/-- Signed reinterpretation of the low byte
(`astype` to the `i1` fields of `HptdcDecodedWord`). -/
def asInt8 (v : Nat) : Int :=
  if v % 256 < 128 then ((v % 256 : Nat) : Int) else ((v % 256 : Nat) : Int) - 256

/-! ## Word codec (`_process_hptdc.py`, `_bitmask` and
`convert_hptdc_group_data_decoded`) -/

/-- `_bitmask(start, end)` from the source:
`((1 << (start - end)) - 1) << end`. -/
def _bitmask (start end_ : Nat) : Nat :=
  ((1 <<< (start - end_)) - 1) <<< end_

/-- One record of the `HptdcDecodedWord` dtype:
2-character type tag, `i1` arg1, `i1` arg2, `i4` arg3. -/
structure DecodedWord where
  type : String
  arg1 : Int
  arg2 : Int
  arg3 : Int
deriving DecidableEq, Repr

/-- One entry of the `HptdcWordDefinitions` table. -/
structure WordDef where
  tag : String
  type_len : Nat
  type_val : Nat
  a1 : Option (Nat × Nat)
  a2 : Option (Nat × Nat)
  a3 : Option (Nat × Nat)

/-- The `HptdcWordDefinitions` dict, in its insertion (iteration) order. -/
def HptdcWordDefinitions : List WordDef :=
  [ ⟨"FL", 2, 2, some (29, 24), none, some (23, 0)⟩,
    ⟨"RS", 2, 3, some (29, 24), none, some (23, 0)⟩,
    ⟨"ER", 2, 1, some (29, 24), some (23, 16), some (15, 0)⟩,
    ⟨"GR", 4, 0, some (27, 24), none, some (23, 0)⟩,
    ⟨"RL", 8, 16, none, none, some (23, 0)⟩,
    ⟨"LV", 5, 3, some (26, 21), none, some (20, 0)⟩ ]

/-- Mask-and-shift extraction of one argument field, with the `astype`
cast to the destination dtype applied (`i1` for arg1/arg2). -/
def extractArg8 (w : Nat) (ad : Nat × Nat) : Int :=
  asInt8 ((w &&& _bitmask ad.1 ad.2) >>> ad.2)

/-- Mask-and-shift extraction of the arg3 field (`i4` destination). -/
def extractArg32 (w : Nat) (ad : Nat × Nat) : Int :=
  asInt32 ((w &&& _bitmask ad.1 ad.2) >>> ad.2)

/-- One iteration of the `for type_str, type_def in
HptdcWordDefinitions.items()` loop of `convert_hptdc_group_data_decoded`,
specialised to a single word: when the top `type_len` bits equal
`type_val`, write the tag and the declared argument fields. -/
def decodeStep (w : Nat) (st : DecodedWord × Bool) (d : WordDef) : DecodedWord × Bool :=
  if w >>> (32 - d.type_len) = d.type_val then
    let o := st.1
    let o := { o with type := d.tag }
    let o := match d.a1 with
      | none => o
      | some ad => { o with arg1 := extractArg8 w ad }
    let o := match d.a2 with
      | none => o
      | some ad => { o with arg2 := extractArg8 w ad }
    let o := match d.a3 with
      | none => o
      | some ad => { o with arg3 := extractArg32 w ad }
    (o, true)
  else st

/-- Per-word semantics of `convert_hptdc_group_data_decoded`: the output
record starts as zeros, each matching definition writes its fields, and a
word matched by no definition becomes type `??` with `arg3` the signed
reinterpretation of the raw word.  (The numpy implementation computes the
same result with vectorised masks; all its operations are elementwise.) -/
def decodeWord (w : Nat) : DecodedWord :=
  let st := HptdcWordDefinitions.foldl (decodeStep w) (⟨"", 0, 0, 0⟩, false)
  if st.2 then st.1 else { st.1 with type := "??", arg3 := asInt32 w }

/-- `convert_hptdc_group_data_raw` : the identity on the raw words. -/
def convert_hptdc_group_data_raw (data : List Nat) : List Nat := data

/-- `convert_hptdc_group_data_decoded` on a batch of words. -/
def convert_hptdc_group_data_decoded (inp : List Nat) : List DecodedWord :=
  inp.map decodeWord

/-- The bits of the half-open range from bit `hi - 1` down to bit `lo`
of `w`, shifted down by `lo`.  This is what `_bitmask(hi, lo)` followed
by the shift actually extracts. -/
def bitsOf (w hi lo : Nat) : Nat :=
  (w >>> lo) % 2 ^ (hi - lo)

/-- Specification-side decoder, written from the amended claim: types
are matched on their leading bits in a fixed priority order, each
declared argument is the half-open range `[high-1 : low]` of the layout
table (one bit short of the stated inclusive top), absent slots are
zero, and an unmatched word becomes `??` carrying the signed
reinterpretation of the raw word. -/
def decodeWordSpec (w : Nat) : DecodedWord :=
  if w >>> 30 = 2 then ⟨"FL", (bitsOf w 29 24 : Nat), 0, (bitsOf w 23 0 : Nat)⟩
  else if w >>> 30 = 3 then ⟨"RS", (bitsOf w 29 24 : Nat), 0, (bitsOf w 23 0 : Nat)⟩
  else if w >>> 30 = 1 then
    ⟨"ER", (bitsOf w 29 24 : Nat), (bitsOf w 23 16 : Nat), (bitsOf w 15 0 : Nat)⟩
  else if w >>> 28 = 0 then ⟨"GR", (bitsOf w 27 24 : Nat), 0, (bitsOf w 23 0 : Nat)⟩
  else if w >>> 24 = 16 then ⟨"RL", 0, 0, (bitsOf w 23 0 : Nat)⟩
  else if w >>> 27 = 3 then ⟨"LV", (bitsOf w 26 21 : Nat), 0, (bitsOf w 20 0 : Nat)⟩
  else ⟨"??", 0, 0, asInt32 w⟩

/-! ## Step streamer chunking (`process_hptdc`, the
`for offset in range(0, data_len, chunk_len)` loop) -/

/-- Split a word list into consecutive chunks of `c` words (the last one
possibly shorter), as the chunked `fp.read(min(chunk_len, data_len -
offset))` loop does.  A zero chunk size raises in the source
(`range` with step 0); it is modelled by an empty result. -/
def chunksOf (c : Nat) (ws : List α) : List (List α) :=
  match c, ws with
  | _, [] => []
  | 0, _ => []
  | Nat.succ c, x :: r =>
      (x :: r).take (c + 1) :: chunksOf (c + 1) ((x :: r).drop (c + 1))
termination_by ws.length
decreasing_by
  simp only [List.length_drop, List.length_cons]
  omega

/-- The step streamer pipeline: convert each chunk, concatenate the
results in order. -/
def stepStreamChunks (c : Nat) (conv : List Nat → List α) (ws : List Nat) : List α :=
  ((chunksOf c ws).map conv).flatten

/-! ## Event classifier (`sort_events.py`, `analyze_words_python`) -/

/-- The `events` dictionary passed into `analyze_words_python`, with its
nine fixed keys.  Appends go at the end of each list, as `list.append`
does. -/
structure Events where
  E : List Int
  EE : List (List Int)
  EEE : List (List Int)
  EEEE : List (List Int)
  P : List Int
  PP : List (List Int)
  EP : List (List Int)
  EEP : List (List Int)
  other : List String
deriving DecidableEq, Repr

/-- The per-call local state of `analyze_words_python`: the two event
buffers and their counters.  These are initialised fresh on every call. -/
structure CState where
  curE : List Int
  curP : List Int
  eCnt : Nat
  pCnt : Nat
deriving DecidableEq, Repr

/-- The full loop state: the externally shared events dictionary, the
local buffers/counters, and the local `n_events` counter. -/
structure AState where
  ev : Events
  cs : CState
  n : Nat
deriving DecidableEq, Repr

def emptyEvents : Events := ⟨[], [], [], [], [], [], [], [], []⟩

def initClassifier : CState := ⟨[], [], 0, 0⟩

/-- `",".join(str(v) for v in l)` over the buffer values. -/
def joinComma (l : List Int) : String :=
  String.intercalate "," (l.map toString)

/-- The `"{0}E{1}P|{2}|{3}".format(...)` summary written for an
unmatched counter pair. -/
def fmtOther (e p : Nat) (eBuf pBuf : List Int) : String :=
  toString e ++ "E" ++ toString p ++ "P|" ++ joinComma eBuf ++ "|" ++ joinComma pBuf

/-- One iteration of the word loop of `analyze_words_python`.  `word[0]`
is the type tag, `word[1]` is `arg1` and `word[3]` is `arg3`.  The
buffer reads `cur_event_E[0]`, `cur_event_E[1]`, `cur_event_P[0]` are
modelled with `getD`; in every branch where they are read the matching
counter equals the buffer length, so the default is never used. -/
def classifyRL (ev : Events) (cs : CState) : Events :=
  if cs.eCnt = 1 ∧ cs.pCnt = 0 then { ev with E := ev.E ++ [cs.curE.getD 0 0] }
  else if cs.eCnt = 0 ∧ cs.pCnt = 1 then { ev with P := ev.P ++ [cs.curP.getD 0 0] }
  else if cs.eCnt = 1 ∧ cs.pCnt = 1 then
    { ev with EP := ev.EP ++ [[cs.curE.getD 0 0, cs.curP.getD 0 0]] }
  else if cs.eCnt = 2 ∧ cs.pCnt = 0 then { ev with EE := ev.EE ++ [cs.curE] }
  else if cs.eCnt = 0 ∧ cs.pCnt = 2 then { ev with PP := ev.PP ++ [cs.curP] }
  else if cs.eCnt = 2 ∧ cs.pCnt = 1 then
    { ev with EEP := ev.EEP ++ [[cs.curE.getD 0 0, cs.curE.getD 1 0, cs.curP.getD 0 0]] }
  else if cs.eCnt = 3 ∧ cs.pCnt = 0 then { ev with EEE := ev.EEE ++ [cs.curE] }
  else if cs.eCnt = 4 ∧ cs.pCnt = 0 then { ev with EEEE := ev.EEEE ++ [cs.curE] }
  else if 0 < cs.eCnt ∨ 0 < cs.pCnt then
    { ev with other := ev.other ++ [fmtOther cs.eCnt cs.pCnt cs.curE cs.curP] }
  else ev

def analyzeStep (st : AState) (w : DecodedWord) : AState :=
  if w.type = "RL" then
    ⟨classifyRL st.ev st.cs, ⟨[], [], 0, 0⟩, st.n + 1⟩
  else if w.type = "GR" then st
  else if w.type = "FL" then
    if w.arg1 = 1 then
      { st with cs := { st.cs with curE := st.cs.curE ++ [w.arg3], eCnt := st.cs.eCnt + 1 } }
    else if w.arg1 = 2 then
      { st with cs := { st.cs with curP := st.cs.curP ++ [w.arg3], pCnt := st.cs.pCnt + 1 } }
    else st
  else st

/-- The word loop of `analyze_words_python` from an arbitrary state. -/
def analyzeFold (st : AState) (words : List DecodedWord) : AState :=
  words.foldl analyzeStep st

/-- `analyze_words_python(events, words)`: the buffers and counters
start empty, the events dictionary is taken from the caller, and the
function returns the mutated events dictionary together with its
`n_events` return value. -/
def analyze_words_python (events : Events) (words : List DecodedWord) : Events × Nat :=
  let r := analyzeFold ⟨events, initClassifier, 0⟩ words
  (r.ev, r.n)

/-- Specification-side classification table for a run closed by an RL
word, written from the claim: the exact (E-count, P-count) pair selects
the bucket, any other pair with a positive count goes to Other with the
formatted summary, and (0,0) emits nothing. -/
def classifyRunSpec (ev : Events) (cs : CState) : Events :=
  match cs.eCnt, cs.pCnt with
  | 1, 0 => { ev with E := ev.E ++ [cs.curE.getD 0 0] }
  | 0, 1 => { ev with P := ev.P ++ [cs.curP.getD 0 0] }
  | 1, 1 => { ev with EP := ev.EP ++ [[cs.curE.getD 0 0, cs.curP.getD 0 0]] }
  | 2, 0 => { ev with EE := ev.EE ++ [cs.curE] }
  | 0, 2 => { ev with PP := ev.PP ++ [cs.curP] }
  | 2, 1 => { ev with EEP := ev.EEP ++ [[cs.curE.getD 0 0, cs.curE.getD 1 0, cs.curP.getD 0 0]] }
  | 3, 0 => { ev with EEE := ev.EEE ++ [cs.curE] }
  | 4, 0 => { ev with EEEE := ev.EEEE ++ [cs.curE] }
  | 0, 0 => ev
  | _, _ => { ev with other := ev.other ++ [fmtOther cs.eCnt cs.pCnt cs.curE cs.curP] }

/-! ## Header resolver (`process_hptdc`, lines 242-289)

The sequential reads after the 5-byte magic sit at fixed offsets:
`header_size` at 5 and `version` at 9 (the `<ii` read), the 4-byte mode
tag at 13, and the `<qiqi` read giving `scan_table_offset` at 17 (8
bytes), `scan_count` at 25 (4), `param_table_offset` at 29 (8) and
`param_table_size` at 37 (4), leaving the cursor at 41.  The legacy
re-read `<iiiic` at 5 gives the four 32-bit fields at 5, 9, 13, 17 and
the mode byte at 21. -/

/-- Outcome of the header parse: the step-entry row width (64-bit
offsets for modern, 32-bit for legacy), the resolved mode bytes, and the
four table fields. -/
structure HeaderInfo where
  is64 : Bool
  mode : List Nat
  scan_table_offset : Int
  scan_count : Int
  param_table_offset : Int
  param_table_size : Int
deriving DecidableEq, Repr

def magicBytes : List Nat := [72, 80, 84, 68, 67]

def dataTag : List Nat := [68, 65, 84, 65]

def grpsTag : List Nat := [71, 82, 80, 83]

def hitsTag : List Nat := [72, 73, 84, 83]

/-- File position at which the 4-byte section marker is checked: the
cursor is at 41 after the fixed reads, `fp.read(header_size - 32)` skips
the rest of the declared header, and a negative skip (declared size
below 32) makes Python read to the end of the file. -/
def dataPosOf (f : List Nat) : Nat :=
  if readIntD f 5 4 < 32 then f.length else 41 + ((readIntD f 5 4).toNat - 32)

/-- The modern-header acceptance condition of the claim: declared
`header_size` at most 4096 and the four bytes after the declared header
equal to the section marker. -/
def modernCond (f : List Nat) : Prop :=
  readIntD f 5 4 ≤ 4096 ∧ readBytes f (dataPosOf f) 4 = dataTag

instance (f : List Nat) : Decidable (modernCond f) := by
  unfold modernCond
  infer_instance

/-- Expected modern outcome: 64-bit step entries, mode from the 4-byte
tag at 13, and the `<qiqi` fields. -/
def modernHeader (f : List Nat) : HeaderInfo :=
  ⟨true, readBytes f 13 4, readIntD f 17 8, readIntD f 25 4, readIntD f 29 8, readIntD f 37 4⟩

/-- Expected legacy outcome: 32-bit step entries, the `<iiiic` fields
re-read directly after the magic, and the mode byte mapping `G` (71) to
group mode and everything else to hit mode. -/
def legacyHeader (f : List Nat) : HeaderInfo :=
  ⟨false, if readBytes f 21 1 = [71] then grpsTag else hitsTag,
    readIntD f 5 4, readIntD f 9 4, readIntD f 13 4, readIntD f 17 4⟩

/-- The header parse of `process_hptdc`: bad magic returns `False`
(modelled `none`); a file too short for the fixed modern reads raises
`struct.error` (also `none`); `old_style` is set when `header_size`
exceeds 4096 or the marker check fails, flattened here into the nested
fallbacks; otherwise the modern fields are kept. -/
def resolveHeader (f : List Nat) : Option HeaderInfo :=
  if readBytes f 0 5 ≠ magicBytes then none
  else if f.length < 41 then none
  else if 4096 < readIntD f 5 4 then
    some ⟨false, if readBytes f 21 1 = [71] then grpsTag else hitsTag,
      readIntD f 5 4, readIntD f 9 4, readIntD f 13 4, readIntD f 17 4⟩
  else if readBytes f (dataPosOf f) 4 = dataTag then
    some ⟨true, readBytes f 13 4, readIntD f 17 8, readIntD f 25 4,
      readIntD f 29 8, readIntD f 37 4⟩
  else
    some ⟨false, if readBytes f 21 1 = [71] then grpsTag else hitsTag,
      readIntD f 5 4, readIntD f 9 4, readIntD f 13 4, readIntD f 17 4⟩

/-- A concrete modern-format file: magic, header_size 40, version 0,
mode `GRPS`, scan_table_offset 100, scan_count 1, zero parameter table,
8 reserved header bytes, then the `DATA` marker at offset 49. -/
def sampleModernFile : List Nat :=
  magicBytes ++ [40, 0, 0, 0] ++ [0, 0, 0, 0] ++ grpsTag
    ++ [100, 0, 0, 0, 0, 0, 0, 0] ++ [1, 0, 0, 0]
    ++ [0, 0, 0, 0, 0, 0, 0, 0] ++ [0, 0, 0, 0]
    ++ [0, 0, 0, 0, 0, 0, 0, 0] ++ dataTag

/-! ## Table store and validity gate (`process_hptdc`, lines 323-380) -/

/-- One row of a step table (`HptdcStepEntry32`/`64`): a 32-byte value
label and two signed offsets of width 4 or 8 bytes. -/
structure StepRow where
  value : List Nat
  data_offset : Int
  data_size : Int
deriving DecidableEq, Repr

/-- Result of loading the declared tables: `crash` models an uncaught
exception (`struct.error`, `frombuffer` size mismatch, row index out of
range), `invalid` the `data_size` validity rejection that discards all
tables, `ok` the fully loaded tables, each with its declared
`step_count`. -/
inductive LoadResult where
  | crash : LoadResult
  | invalid : LoadResult
  | ok : List (Int × List StepRow) → LoadResult
deriving DecidableEq, Repr

/-- Result of the inner `for step_idx in range(step_count)` validity
loop. -/
inductive RowCheck where
  | pass : RowCheck
  | crash : RowCheck
  | invalid : RowCheck
deriving DecidableEq, Repr

/-- Parse `numpy.frombuffer` rows of width `32 + 2 * offW`; the fuel is
the byte count, enough for every row. -/
def parseRowsGo (offW : Nat) : Nat → List Nat → List StepRow
  | _, [] => []
  | 0, _ :: _ => []
  | fuel + 1, x :: r =>
      { value := (x :: r).take 32,
        data_offset := readIntD (x :: r) 32 offW,
        data_size := readIntD (x :: r) (32 + offW) offW }
        :: parseRowsGo offW fuel ((x :: r).drop (32 + 2 * offW))

/-- The `for step_idx in range(step_count)` loop: an index beyond the
parsed rows raises (`crash`), a negative or non-multiple `data_size`
discards the tables (`invalid`). -/
def checkRowsGo (rows : List StepRow) (itemW : Nat) : Nat → Nat → RowCheck
  | 0, _ => .pass
  | rem + 1, j =>
      if hj : j < rows.length then
        if (rows.get ⟨j, hj⟩).data_size < 0
            ∨ ¬ (rows.get ⟨j, hj⟩).data_size % (itemW : Int) = 0 then .invalid
        else checkRowsGo rows itemW rem (j + 1)
      else .crash

def checkRows (rows : List StepRow) (itemW : Nat) (cnt : Nat) : RowCheck :=
  checkRowsGo rows itemW cnt 0

/-- The bytes of one scan table: `fp.read(step_table_size)` at the
cursor after the 8-byte scan header; a negative declared size makes
Python read to the end of the file. -/
def scanRawBytes (f : List Nat) (pos : Nat) : List Nat :=
  if readIntD f (pos + 4) 4 < 0 then f.drop (pos + 8)
  else readBytes f (pos + 8) (readIntD f (pos + 4) 4).toNat

/-- The `for scan_idx in range(scan_count)` loop reading one step table
per scan: an 8-byte `<ii` header (`step_count`, `step_table_size`) is
read at the cursor, then the table bytes; `frombuffer` rejects a byte
count that is not a whole number of rows (`crash`), then the validity
loop runs over the declared `step_count`. -/
def loadStepTablesGo (f : List Nat) (offW itemW : Nat) : Nat → Nat → LoadResult
  | 0, _ => .ok []
  | count + 1, pos =>
      if (readBytes f pos 8).length < 8 then .crash
      else if ¬ (scanRawBytes f pos).length % (32 + 2 * offW) = 0 then .crash
      else
        match checkRows (parseRowsGo offW (scanRawBytes f pos).length (scanRawBytes f pos))
            itemW (readIntD f pos 4).toNat with
        | .crash => .crash
        | .invalid => .invalid
        | .pass =>
            match loadStepTablesGo f offW itemW count (pos + 8 + (scanRawBytes f pos).length) with
            | .ok ts =>
                .ok ((readIntD f pos 4,
                  parseRowsGo offW (scanRawBytes f pos).length (scanRawBytes f pos)) :: ts)
            | r => r

def loadStepTables (f : List Nat) (sto : Nat) (sc : Int) (offW itemW : Nat) : LoadResult :=
  loadStepTablesGo f offW itemW sc.toNat sto

/-- Which tables the step streamer ends up using: the loaded tables, the
marker-scan rebuild, or a crash of the whole call. -/
inductive TableSource where
  | loaded : List (Int × List StepRow) → TableSource
  | rebuilt : TableSource
  | crash : TableSource
deriving DecidableEq, Repr

/-- The `if scan_table_offset > 0 and not ignore_tables` gate of
`process_hptdc`: a positive offset loads and validates the tables, an
`invalid` load (like a zero or negative offset, or `ignore_tables`)
falls back to `rebuild_hptdc_tables`. -/
def tableDecision (f : List Nat) (sto sc : Int) (ignore_tables : Bool)
    (offW itemW : Nat) : TableSource :=
  if 0 < sto ∧ ignore_tables = false then
    match loadStepTables f sto.toNat sc offW itemW with
    | .ok ts => .loaded ts
    | .invalid => .rebuilt
    | .crash => .crash
  else .rebuilt

/-- A scan table whose declared `step_count` is 1 but whose byte size
holds two rows: row 0 is valid, row 1 has `data_size = 10`, not a
multiple of the 4-byte record width.  Laid out at offset 1. -/
def sampleUncheckedRowFile : List Nat :=
  [0] ++ [1, 0, 0, 0] ++ [80, 0, 0, 0]
    ++ (List.replicate 32 0 ++ [0, 0, 0, 0] ++ [8, 0, 0, 0])
    ++ (List.replicate 32 0 ++ [0, 0, 0, 0] ++ [10, 0, 0, 0])

/-- Like `sampleUncheckedRowFile` but with both rows valid
(`data_size` 8 and 12). -/
def sampleValidTableFile : List Nat :=
  [0] ++ [1, 0, 0, 0] ++ [80, 0, 0, 0]
    ++ (List.replicate 32 0 ++ [0, 0, 0, 0] ++ [8, 0, 0, 0])
    ++ (List.replicate 32 0 ++ [0, 0, 0, 0] ++ [12, 0, 0, 0])

/-! ## Table rebuild from the marker list (`rebuild_hptdc_tables`,
lines 142-178) -/

/-- One entry of a rebuilt step table: the synthetic value label and the
two offsets. -/
structure StepEntry where
  value : String
  data_offset : Int
  data_size : Int
deriving DecidableEq, Repr

/-- `str(float(step_idx))` for the step indexes in use (every index
below 10^16, where Python prints digits followed by `.0`). -/
def stepLabel (k : Nat) : String :=
  toString k ++ ".0"

/-- The `for i in range(n_markers)` reduce loop of
`rebuild_hptdc_tables`: a negative entry opens a new scan (the source
preallocates `numpy.zeros((step_count,))` with `step_count` the number
of following non-negative entries and then fills the slots in order,
which is the same as appending an empty table here and appending one
entry per step); a non-negative entry fills the next slot of the last
opened table with label `str(float(step_idx))`, offset the marker value
and size `marker_pos[i + 1] - data_offset` (or `data_end - data_offset`
for the last marker).  A step entry before any scan marker raises
`IndexError` in the source (`none` here). -/
def goReduce (dataEnd : Int) : List Int → List (List StepEntry) → Option (List (List StepEntry))
  | [], ts => some ts
  | x :: rest, ts =>
      if x < 0 then goReduce dataEnd rest (ts ++ [[]])
      else
        match ts.getLast? with
        | none => none
        | some last =>
            goReduce dataEnd rest
              (ts.dropLast ++ [last ++ [⟨stepLabel last.length, x, rest.headD dataEnd - x⟩]])

def reduceMarkers (mp : List Int) (dataEnd : Int) : Option (List (List StepEntry)) :=
  goReduce dataEnd mp []

/-- Specification-side terminator of a scan: the stored value of the
next recorded marker (negative for a scan marker) or `data_end`. -/
def nextTerm (d : Int) : List (Int × List Int) → Int
  | [] => d
  | (m, _) :: _ => m

/-- Specification-side entries of one scan: the k-th step carries label
`str(float(k))`, its marker offset, and the difference between the next
entry of the marker list (or the terminator) and its offset. -/
def entriesFor (startIdx : Nat) (term : Int) : List Int → List StepEntry
  | [] => []
  | [o] => [⟨stepLabel startIdx, o, term - o⟩]
  | o :: o2 :: r => ⟨stepLabel startIdx, o, o2 - o⟩ :: entriesFor (startIdx + 1) term (o2 :: r)

/-- Specification-side rebuilt tables for a marker list presented as
scan groups. -/
def specTables (d : Int) : List (Int × List Int) → List (List StepEntry)
  | [] => []
  | (_, ss) :: rest => entriesFor 0 (nextTerm d rest) ss :: specTables d rest

/-- Flatten scan groups back into the recorded marker list: each group
is its (negative) scan marker followed by its step marker offsets. -/
def flatScans : List (Int × List Int) → List Int
  | [] => []
  | (m, ss) :: rest => (m :: ss) ++ flatScans rest

/-! ## Marker scanning loop (`rebuild_hptdc_tables`, lines 94-140)

The loop counters are modelled with an explicit fuel argument that
bounds the number of iterations; the wrappers pass fuel that covers
every possible iteration (the inner cursor advances at least one byte
per found marker, the outer loop consumes at least one byte of the
remaining stream per iteration), so exhaustion (`none`) occurs exactly
for the degenerate parameters on which the source loops forever (empty
markers, a window size of zero, or both markers found at the same
position). -/

/-- `bytes.find(pat)`: index of the first complete occurrence of `pat`,
`none` when absent (Python returns -1). -/
def findSub (pat : List Nat) : List Nat → Option Nat
  | [] => if pat.isPrefixOf ([] : List Nat) then some 0 else none
  | x :: t =>
      if pat.isPrefixOf (x :: t) then some 0
      else (findSub pat t).map (· + 1)

/-- The inner `while buf_pos < buf_len` loop: find the earliest
occurrence of either marker from the cursor; record its absolute offset
(negated for the scan marker) and advance past it; when neither is
found, truncate the buffer to `max(buf_pos, len(buf) - max marker
length)` and advance `offset` accordingly; when the cursor reaches the
end of the buffer, leave the buffer and offset untouched. -/
def innerScan (scanM stepM : List Nat) :
    Nat → List Nat → Nat → Int → List Int → Option (List Int × List Nat × Int)
  | 0, _, _, _, _ => none
  | fuel + 1, buf, bufPos, offset, acc =>
      if bufPos < buf.length then
        match findSub scanM (buf.drop bufPos), findSub stepM (buf.drop bufPos) with
        | none, none =>
            some (acc, buf.drop (max bufPos (buf.length - max scanM.length stepM.length)),
              offset + (max bufPos (buf.length - max scanM.length stepM.length) : Nat))
        | some ns, none =>
            innerScan scanM stepM fuel buf (bufPos + ns + scanM.length) offset
              (acc ++ [-(offset + (bufPos : Int) + (ns : Int))])
        | none, some nt =>
            innerScan scanM stepM fuel buf (bufPos + nt + stepM.length) offset
              (acc ++ [offset + (bufPos : Int) + (nt : Int)])
        | some ns, some nt =>
            if ns < nt then
              innerScan scanM stepM fuel buf (bufPos + ns + scanM.length) offset
                (acc ++ [-(offset + (bufPos : Int) + (ns : Int))])
            else if nt < ns then
              innerScan scanM stepM fuel buf (bufPos + nt + stepM.length) offset
                (acc ++ [offset + (bufPos : Int) + (nt : Int)])
            else none
      else some (acc, buf, offset)

/-- The outer `while not eof` loop: read a window of `readLen` bytes
(a short read sets eof), append it to the carried buffer, run the inner
scan from cursor position 0, and continue with the returned buffer and
offset. -/
def outerScan (scanM stepM : List Nat) (readLen : Nat) :
    Nat → List Nat → List Nat → Int → List Int → Option (List Int)
  | 0, _, _, _, _ => none
  | fuel + 1, remaining, buf, offset, acc =>
      if (remaining.take readLen).length < readLen then
        match innerScan scanM stepM ((buf ++ remaining.take readLen).length + 1)
            (buf ++ remaining.take readLen) 0 offset acc with
        | none => none
        | some (acc2, _, _) => some acc2
      else
        match innerScan scanM stepM ((buf ++ remaining.take readLen).length + 1)
            (buf ++ remaining.take readLen) 0 offset acc with
        | none => none
        | some (acc2, buf3, off3) =>
            outerScan scanM stepM readLen fuel (remaining.drop readLen) buf3 off3 acc2

/-- The chunked marker scan over the stream that starts at `data_begin`
(absolute offset `startOffset`). -/
def rebuildScan (scanM stepM : List Nat) (readLen : Nat) (stream : List Nat)
    (startOffset : Int) : Option (List Int) :=
  outerScan scanM stepM readLen (stream.length + 1) stream [] startOffset []

/-- Reference single left-to-right scan of the whole stream: at each
position take whichever marker occurs first (at most one can match at a
given position for the equal-length distinct marker pairs in use),
record its absolute offset (negated for the scan marker), and advance
past it. -/
def refMarkerScan (scanM stepM : List Nat) :
    Nat → List Nat → Int → List Int
  | 0, _, _ => []
  | fuel + 1, s, offset =>
      match s with
      | [] => []
      | x :: rest =>
          if scanM ≠ [] ∧ scanM.isPrefixOf (x :: rest) then
            -offset :: refMarkerScan scanM stepM fuel ((x :: rest).drop scanM.length)
              (offset + (scanM.length : Nat))
          else if stepM ≠ [] ∧ stepM.isPrefixOf (x :: rest) then
            offset :: refMarkerScan scanM stepM fuel ((x :: rest).drop stepM.length)
              (offset + (stepM.length : Nat))
          else refMarkerScan scanM stepM fuel rest (offset + 1)

def refScanAll (scanM stepM : List Nat) (stream : List Nat) (startOffset : Int) : List Int :=
  refMarkerScan scanM stepM (stream.length + 1) stream startOffset

/-- Group-mode scan marker `00 00 00 00 A0 00 00 00`. -/
def gScanMarker : List Nat := [0, 0, 0, 0, 160, 0, 0, 0]

/-- Group-mode step marker `00 00 00 00 B0 00 00 00`. -/
def gStepMarker : List Nat := [0, 0, 0, 0, 176, 0, 0, 0]

/-! ## Trailing parameter block (`process_hptdc`, lines 443-473) -/

/-- Python `str.split(sep)` with a one-byte separator: keeps empty
pieces, and the empty string splits to one empty piece. -/
def splitOnByte (sep : Nat) : List Nat → List (List Nat)
  | [] => [[]]
  | x :: rest =>
      if x = sep then [] :: splitOnByte sep rest
      else
        match splitOnByte sep rest with
        | [] => [[x]]
        | h :: t => (x :: h) :: t

/-- `fp.read(param_table_size - 1)` after seeking to the parameter
table offset; a negative byte count makes Python read to the end of the
file. -/
def rawParamBytes (f : List Nat) (pto pts : Int) : List Nat :=
  if pts - 1 < 0 then f.drop pto.toNat else (f.drop pto.toNat).take (pts - 1).toNat

/-- The `for line in param_lines` loop: each line must split on a space
into exactly a key and a value (`key, value = line.split(" ")`); any
other field count raises an uncaught `ValueError` (`none`). -/
def parseParamLines : List (List Nat) → Option (List (List Nat × List Nat))
  | [] => some []
  | l :: rest =>
      match splitOnByte 32 l with
      | [k, v] => (parseParamLines rest).map (fun a => (k, v) :: a)
      | _ => none

/-- The parameter-table phase of `process_hptdc`: a negative offset
raises `OSError` in `seek` (caught: warn and return success with no
attributes); a byte above 127 makes the ascii decode raise (caught the
same way); empty or falsy first line warns and succeeds with no
attributes; otherwise the key-value lines are parsed, and a malformed
line raises an uncaught error.  The result is `(warned, attributes)` on
success. -/
def paramPhase (f : List Nat) (pto pts : Int) :
    Except Unit (Bool × List (List Nat × List Nat)) :=
  if pto < 0 then .ok (true, [])
  else if (rawParamBytes f pto pts).any (fun b => 128 ≤ b) then .ok (true, [])
  else if splitOnByte 10 (rawParamBytes f pto pts) ≠ []
      ∧ (splitOnByte 10 (rawParamBytes f pto pts)).headD [] ≠ [] then
    match parseParamLines (splitOnByte 10 (rawParamBytes f pto pts)) with
    | some attrs => .ok (false, attrs)
    | none => .error ()
  else .ok (true, [])

/-! ## Theorems -/

theorem chunksOf_flatten_aux (c : Nat) (hc : 0 < c) :
    ∀ (n : Nat) (ws : List α), ws.length ≤ n → (chunksOf c ws).flatten = ws := by
  intro n
  induction n with
  | zero =>
    intro ws h
    have hws : ws = [] := List.eq_nil_of_length_eq_zero (by omega)
    subst hws
    cases c <;> simp [chunksOf]
  | succ n ih =>
    intro ws h
    cases ws with
    | nil => cases c <;> simp [chunksOf]
    | cons x r =>
      cases c with
      | zero => omega
      | succ c =>
        rw [chunksOf, List.flatten_cons,
          ih ((x :: r).drop (c + 1))
            (by simp only [List.length_drop, List.length_cons] at h ⊢; omega),
          List.take_append_drop]

theorem chunksOf_flatten (c : Nat) (ws : List α) (hc : 0 < c) :
    (chunksOf c ws).flatten = ws :=
  chunksOf_flatten_aux c hc ws.length ws (Nat.le_refl _)

theorem map_flatten_chunks (f : α → β) (L : List (List α)) :
    (L.map (List.map f)).flatten = L.flatten.map f := by
  induction L with
  | nil => rfl
  | cons h t ih => simp only [List.map_cons, List.flatten_cons, List.map_append, ih]

/-- C1: Chunk invariance of the step streamer.  For every step payload
(a list of whole in-stream records) and every positive chunk size,
concatenating the per-chunk conversions (identity in raw mode, the word
decoder in decoded mode) equals converting the entire payload in one
pass; hence any two positive chunk sizes, in particular 1, 7 and 10000,
produce identical ordered record sequences. -/
theorem stepStreamer_chunk_invariant (ws : List Nat) (c : Nat) (hc : 0 < c) :
    stepStreamChunks c convert_hptdc_group_data_raw ws
        = convert_hptdc_group_data_raw ws
      ∧ stepStreamChunks c convert_hptdc_group_data_decoded ws
        = convert_hptdc_group_data_decoded ws := by
  constructor
  · show ((chunksOf c ws).map id).flatten = ws
    rw [List.map_id, chunksOf_flatten c ws hc]
  · show ((chunksOf c ws).map (List.map decodeWord)).flatten = ws.map decodeWord
    rw [map_flatten_chunks, chunksOf_flatten c ws hc]

theorem and_mask_shift (x hi lo : Nat) (h : lo ≤ hi) :
    (x &&& _bitmask hi lo) >>> lo = (x >>> lo) % 2 ^ (hi - lo) := by
  have hm : _bitmask hi lo = (2 ^ (hi - lo) - 1) <<< lo := by
    simp [_bitmask, Nat.one_shiftLeft]
  rw [hm]
  apply Nat.eq_of_testBit_eq
  intro i
  simp only [Nat.testBit_shiftRight, Nat.testBit_and, Nat.testBit_shiftLeft,
    Nat.testBit_mod_two_pow, Nat.testBit_two_pow_sub_one]
  simp only [Nat.add_sub_cancel_left]
  cases hx : x.testBit (lo + i) <;> simp [Nat.le_add_right]

theorem asInt8_small (v : Nat) (h : v < 128) : asInt8 v = (v : Int) := by
  have hm : v % 256 = v := Nat.mod_eq_of_lt (by omega)
  unfold asInt8
  rw [hm, if_pos h]

theorem asInt32_small (v : Nat) (h : v < 2 ^ 31) : asInt32 v = (v : Int) := by
  unfold asInt32
  rw [if_pos h]

/-- C2 (counterexample to the claim as stated): the word `0xA0000000`
has its top two bits equal to the FL pattern and bit 29 set; the bits of
the inclusive range `[29:24]` shifted down by 24 equal 32, but the
decoder leaves `arg1 = 0` because `_bitmask(29, 24)` only covers bits
28..24. -/
theorem decode_inclusive_range_counterexample :
    decodeWord 2684354560 = ⟨"FL", 0, 0, 0⟩
      ∧ (2684354560 >>> 24) % 2 ^ 6 = 32
      ∧ (0 : Int) ≠ 32 :=
  ⟨by decide, by decide, by decide⟩

/-- C2 (amended): for every 32-bit raw word, the decoder agrees with the
spec-side table in which every declared argument is the half-open bit
range `[high-1 : low]` shifted down by `low` (FL/RS/ER arg1 = bits
28..24, GR arg1 = bits 26..24, LV arg1 = bits 25..21, ER arg2 = bits
22..16, FL/RS/GR/RL arg3 = bits 22..0, ER arg3 = bits 14..0, LV arg3 =
bits 19..0), absent slots are zero, and a word matching no pattern
decodes to `??` with `arg3` its signed 32-bit reinterpretation. -/
theorem decode_matches_halfopen_spec (w : Nat) (hw : w < 2 ^ 32) :
    decodeWord w = decodeWordSpec w := by
  have h1 : (w &&& _bitmask 29 24) >>> 24 = (w >>> 24) % 2 ^ 5 := by
    simpa using and_mask_shift w 29 24 (by omega)
  have h2 : (w &&& _bitmask 23 0) >>> 0 = w % 2 ^ 23 := by
    simpa using and_mask_shift w 23 0 (by omega)
  have h3 : (w &&& _bitmask 23 16) >>> 16 = (w >>> 16) % 2 ^ 7 := by
    simpa using and_mask_shift w 23 16 (by omega)
  have h4 : (w &&& _bitmask 15 0) >>> 0 = w % 2 ^ 15 := by
    simpa using and_mask_shift w 15 0 (by omega)
  have h5 : (w &&& _bitmask 27 24) >>> 24 = (w >>> 24) % 2 ^ 3 := by
    simpa using and_mask_shift w 27 24 (by omega)
  have h6 : (w &&& _bitmask 26 21) >>> 21 = (w >>> 21) % 2 ^ 5 := by
    simpa using and_mask_shift w 26 21 (by omega)
  have h7 : (w &&& _bitmask 20 0) >>> 0 = w % 2 ^ 20 := by
    simpa using and_mask_shift w 20 0 (by omega)
  have e1 : asInt8 ((w >>> 24) % 2 ^ 5) = (((w >>> 24) % 2 ^ 5 : Nat) : Int) :=
    asInt8_small _ (by omega)
  have e2 : asInt32 (w % 2 ^ 23) = ((w % 2 ^ 23 : Nat) : Int) :=
    asInt32_small _ (by omega)
  have e3 : asInt8 ((w >>> 16) % 2 ^ 7) = (((w >>> 16) % 2 ^ 7 : Nat) : Int) :=
    asInt8_small _ (by omega)
  have e4 : asInt32 (w % 2 ^ 15) = ((w % 2 ^ 15 : Nat) : Int) :=
    asInt32_small _ (by omega)
  have e5 : asInt8 ((w >>> 24) % 2 ^ 3) = (((w >>> 24) % 2 ^ 3 : Nat) : Int) :=
    asInt8_small _ (by omega)
  have e6 : asInt8 ((w >>> 21) % 2 ^ 5) = (((w >>> 21) % 2 ^ 5 : Nat) : Int) :=
    asInt8_small _ (by omega)
  have e7 : asInt32 (w % 2 ^ 20) = ((w % 2 ^ 20 : Nat) : Int) :=
    asInt32_small _ (by omega)
  have d1 : w >>> 28 = w >>> 24 / 16 := by
    have hd := Nat.shiftRight_add w 24 4
    norm_num at hd
    rw [hd, Nat.shiftRight_eq_div_pow]
  have d2 : w >>> 30 = w >>> 24 / 64 := by
    have hd := Nat.shiftRight_add w 24 6
    norm_num at hd
    rw [hd, Nat.shiftRight_eq_div_pow]
  have d3 : w >>> 27 = w >>> 24 / 8 := by
    have hd := Nat.shiftRight_add w 24 3
    norm_num at hd
    rw [hd, Nat.shiftRight_eq_div_pow]
  by_cases cFL : w >>> 30 = 2
  · have n2 : (w >>> 30 = 3) = False := eq_false (by omega)
    have n3 : (w >>> 30 = 1) = False := eq_false (by omega)
    have n4 : (w >>> 28 = 0) = False := eq_false (by omega)
    have n5 : (w >>> 24 = 16) = False := eq_false (by omega)
    have n6 : (w >>> 27 = 3) = False := eq_false (by omega)
    simp only [decodeWord, decodeWordSpec, HptdcWordDefinitions, List.foldl, decodeStep,
      extractArg8, extractArg32, bitsOf,
      show (32 - 2 : Nat) = 30 from rfl, show (32 - 4 : Nat) = 28 from rfl,
      show (32 - 8 : Nat) = 24 from rfl, show (32 - 5 : Nat) = 27 from rfl,
      show (29 - 24 : Nat) = 5 from rfl, show (23 - 0 : Nat) = 23 from rfl,
      eq_true cFL, n2, n3, n4, n5, n6, if_true, if_false, ite_true, ite_false]
    simp only [h1, h2, e1, e2, Nat.shiftRight_zero]
  · by_cases cRS : w >>> 30 = 3
    · have n1 : (w >>> 30 = 2) = False := eq_false cFL
      have n3 : (w >>> 30 = 1) = False := eq_false (by omega)
      have n4 : (w >>> 28 = 0) = False := eq_false (by omega)
      have n5 : (w >>> 24 = 16) = False := eq_false (by omega)
      have n6 : (w >>> 27 = 3) = False := eq_false (by omega)
      simp only [decodeWord, decodeWordSpec, HptdcWordDefinitions, List.foldl, decodeStep,
        extractArg8, extractArg32, bitsOf,
        show (32 - 2 : Nat) = 30 from rfl, show (32 - 4 : Nat) = 28 from rfl,
        show (32 - 8 : Nat) = 24 from rfl, show (32 - 5 : Nat) = 27 from rfl,
        show (29 - 24 : Nat) = 5 from rfl, show (23 - 0 : Nat) = 23 from rfl,
        eq_true cRS, n1, n3, n4, n5, n6, if_true, if_false, ite_true, ite_false]
      simp only [h1, h2, e1, e2, Nat.shiftRight_zero]
    · by_cases cER : w >>> 30 = 1
      · have n1 : (w >>> 30 = 2) = False := eq_false cFL
        have n2 : (w >>> 30 = 3) = False := eq_false cRS
        have n4 : (w >>> 28 = 0) = False := eq_false (by omega)
        have n5 : (w >>> 24 = 16) = False := eq_false (by omega)
        have n6 : (w >>> 27 = 3) = False := eq_false (by omega)
        simp only [decodeWord, decodeWordSpec, HptdcWordDefinitions, List.foldl, decodeStep,
          extractArg8, extractArg32, bitsOf,
          show (32 - 2 : Nat) = 30 from rfl, show (32 - 4 : Nat) = 28 from rfl,
          show (32 - 8 : Nat) = 24 from rfl, show (32 - 5 : Nat) = 27 from rfl,
          show (29 - 24 : Nat) = 5 from rfl, show (23 - 16 : Nat) = 7 from rfl,
          show (15 - 0 : Nat) = 15 from rfl,
          eq_true cER, n1, n2, n4, n5, n6, if_true, if_false, ite_true, ite_false]
        simp only [h1, h3, h4, e1, e3, e4, Nat.shiftRight_zero]
      · by_cases cGR : w >>> 28 = 0
        · have n1 : (w >>> 30 = 2) = False := eq_false cFL
          have n2 : (w >>> 30 = 3) = False := eq_false cRS
          have n3 : (w >>> 30 = 1) = False := eq_false cER
          have n5 : (w >>> 24 = 16) = False := eq_false (by omega)
          have n6 : (w >>> 27 = 3) = False := eq_false (by omega)
          simp only [decodeWord, decodeWordSpec, HptdcWordDefinitions, List.foldl,
            decodeStep, extractArg8, extractArg32, bitsOf,
            show (32 - 2 : Nat) = 30 from rfl, show (32 - 4 : Nat) = 28 from rfl,
            show (32 - 8 : Nat) = 24 from rfl, show (32 - 5 : Nat) = 27 from rfl,
            show (27 - 24 : Nat) = 3 from rfl, show (23 - 0 : Nat) = 23 from rfl,
            eq_true cGR, n1, n2, n3, n5, n6, if_true, if_false, ite_true, ite_false]
          simp only [h2, h5, e2, e5, Nat.shiftRight_zero]
        · by_cases cRL : w >>> 24 = 16
          · have n1 : (w >>> 30 = 2) = False := eq_false cFL
            have n2 : (w >>> 30 = 3) = False := eq_false cRS
            have n3 : (w >>> 30 = 1) = False := eq_false cER
            have n4 : (w >>> 28 = 0) = False := eq_false cGR
            have n6 : (w >>> 27 = 3) = False := eq_false (by omega)
            simp only [decodeWord, decodeWordSpec, HptdcWordDefinitions, List.foldl,
              decodeStep, extractArg8, extractArg32, bitsOf,
              show (32 - 2 : Nat) = 30 from rfl, show (32 - 4 : Nat) = 28 from rfl,
              show (32 - 8 : Nat) = 24 from rfl, show (32 - 5 : Nat) = 27 from rfl,
              show (23 - 0 : Nat) = 23 from rfl,
              eq_true cRL, n1, n2, n3, n4, n6, if_true, if_false, ite_true, ite_false]
            simp only [h2, e2, Nat.shiftRight_zero]
          · by_cases cLV : w >>> 27 = 3
            · have n1 : (w >>> 30 = 2) = False := eq_false cFL
              have n2 : (w >>> 30 = 3) = False := eq_false cRS
              have n3 : (w >>> 30 = 1) = False := eq_false cER
              have n4 : (w >>> 28 = 0) = False := eq_false cGR
              have n5 : (w >>> 24 = 16) = False := eq_false cRL
              simp only [decodeWord, decodeWordSpec, HptdcWordDefinitions, List.foldl,
                decodeStep, extractArg8, extractArg32, bitsOf,
                show (32 - 2 : Nat) = 30 from rfl, show (32 - 4 : Nat) = 28 from rfl,
                show (32 - 8 : Nat) = 24 from rfl, show (32 - 5 : Nat) = 27 from rfl,
                show (26 - 21 : Nat) = 5 from rfl, show (20 - 0 : Nat) = 20 from rfl,
                eq_true cLV, n1, n2, n3, n4, n5, if_true, if_false, ite_true, ite_false]
              simp only [h6, h7, e6, e7, Nat.shiftRight_zero]
            · have n1 : (w >>> 30 = 2) = False := eq_false cFL
              have n2 : (w >>> 30 = 3) = False := eq_false cRS
              have n3 : (w >>> 30 = 1) = False := eq_false cER
              have n4 : (w >>> 28 = 0) = False := eq_false cGR
              have n5 : (w >>> 24 = 16) = False := eq_false cRL
              have n6 : (w >>> 27 = 3) = False := eq_false cLV
              simp only [decodeWord, decodeWordSpec, HptdcWordDefinitions, List.foldl,
                decodeStep, extractArg8, extractArg32, bitsOf,
                show (32 - 2 : Nat) = 30 from rfl, show (32 - 4 : Nat) = 28 from rfl,
                show (32 - 8 : Nat) = 24 from rfl, show (32 - 5 : Nat) = 27 from rfl,
                n1, n2, n3, n4, n5, n6, if_true, if_false, ite_true, ite_false,
                Bool.false_eq_true]

theorem decode_matches_halfopen_spec_witness :
    (2684354561 < 2 ^ 32) ∧ decodeWord 2684354561 = decodeWordSpec 2684354561 :=
  ⟨by decide, decode_matches_halfopen_spec 2684354561 (by decide)⟩

/-- C3: each RL word closes the current run and updates the events
dictionary exactly as the (E-count, P-count) lookup table prescribes,
leaving both buffers empty and both counters zero afterwards, and GR
words change no classifier state at all. -/
theorem classifier_lookup_table (ev : Events) (cs : CState) (n : Nat) (a1 a2 a3 : Int) :
    analyzeStep ⟨ev, cs, n⟩ ⟨"RL", a1, a2, a3⟩ = ⟨classifyRunSpec ev cs, ⟨[], [], 0, 0⟩, n + 1⟩
      ∧ analyzeStep ⟨ev, cs, n⟩ ⟨"GR", a1, a2, a3⟩ = ⟨ev, cs, n⟩ := by
  constructor
  · have hcl : classifyRL ev cs = classifyRunSpec ev cs := by
      rcases cs with ⟨cE, cP, e, p⟩
      rcases e with _ | _ | _ | _ | _ | e <;> rcases p with _ | _ | _ | p <;>
        simp [classifyRL, classifyRunSpec]
    show (⟨classifyRL ev cs, ⟨[], [], 0, 0⟩, n + 1⟩ : AState) = _
    rw [hcl]
  · rfl

/-- C10: an FL word whose `arg1` is neither 1 nor 2 leaves the
classifier state untouched: it changes no buffer, no counter and no
event list, and deleting it from a word sequence does not change the
result of `analyze_words_python`. -/
theorem fl_other_arg1_ignored (ev : Events) (ws1 ws2 : List DecodedWord)
    (a1 a2 a3 : Int) (h1 : a1 ≠ 1) (h2 : a1 ≠ 2) :
    (∀ st : AState, analyzeStep st ⟨"FL", a1, a2, a3⟩ = st)
      ∧ analyze_words_python ev (ws1 ++ ⟨"FL", a1, a2, a3⟩ :: ws2)
        = analyze_words_python ev (ws1 ++ ws2) := by
  have hstep : ∀ st : AState, analyzeStep st ⟨"FL", a1, a2, a3⟩ = st := by
    intro st
    simp [analyzeStep, h1, h2]
  refine ⟨hstep, ?_⟩
  unfold analyze_words_python analyzeFold
  rw [show ws1 ++ ⟨"FL", a1, a2, a3⟩ :: ws2 = (ws1 ++ [⟨"FL", a1, a2, a3⟩]) ++ ws2 by simp,
    List.foldl_append, List.foldl_append, List.foldl_append]
  simp [hstep]

theorem fl_other_arg1_ignored_witness :
    ((3 : Int) ≠ 1 ∧ (3 : Int) ≠ 2)
      ∧ analyze_words_python emptyEvents [⟨"FL", 3, 0, 7⟩, ⟨"RL", 0, 0, 0⟩]
        = analyze_words_python emptyEvents [⟨"RL", 0, 0, 0⟩] :=
  ⟨⟨by decide, by decide⟩,
    (fl_other_arg1_ignored emptyEvents [] [⟨"RL", 0, 0, 0⟩] 3 0 7
      (by decide) (by decide)).2⟩

theorem analyzeStep_shift (ev : Events) (cs : CState) (n : Nat) (w : DecodedWord) :
    analyzeStep ⟨ev, cs, n⟩ w
      = ⟨(analyzeStep ⟨ev, cs, 0⟩ w).ev, (analyzeStep ⟨ev, cs, 0⟩ w).cs,
          n + (analyzeStep ⟨ev, cs, 0⟩ w).n⟩ := by
  unfold analyzeStep
  split_ifs <;> rfl

theorem analyzeFold_shift (ws : List DecodedWord) :
    ∀ (ev : Events) (cs : CState) (n : Nat),
      analyzeFold ⟨ev, cs, n⟩ ws
        = ⟨(analyzeFold ⟨ev, cs, 0⟩ ws).ev, (analyzeFold ⟨ev, cs, 0⟩ ws).cs,
            n + (analyzeFold ⟨ev, cs, 0⟩ ws).n⟩ := by
  induction ws with
  | nil => intro ev cs n; simp [analyzeFold]
  | cons w ws ih =>
    intro ev cs n
    show analyzeFold (analyzeStep ⟨ev, cs, n⟩ w) ws = _
    rw [analyzeStep_shift ev cs n w]
    rcases hsw : analyzeStep ⟨ev, cs, 0⟩ w with ⟨e1, c1, m1⟩
    rw [ih e1 c1 (n + m1)]
    have hrhs : analyzeFold ⟨ev, cs, 0⟩ (w :: ws) = analyzeFold ⟨e1, c1, m1⟩ ws := by
      show analyzeFold (analyzeStep ⟨ev, cs, 0⟩ w) ws = _
      rw [hsw]
    rw [hrhs, ih e1 c1 m1]
    simp [Nat.add_assoc]

theorem analyzeStep_RL_resets (st : AState) (a1 a2 a3 : Int) :
    (analyzeStep st ⟨"RL", a1, a2, a3⟩).cs = ⟨[], [], 0, 0⟩ := by
  simp [analyzeStep]

/-- C4 (amended): only the events dictionary is carried between
successive classifier calls; the buffers and counters are reinitialised
empty on each call, so a step's decoded word stream split immediately
after an RL word is processed across two calls with exactly the same
events result and the two returned counts summing to the one-pass
count. -/
theorem classifier_split_after_RL_equiv (ev : Events) (ws1 ws2 : List DecodedWord)
    (a1 a2 a3 : Int) :
    ((analyze_words_python
        ((analyze_words_python ev (ws1 ++ [⟨"RL", a1, a2, a3⟩])).1) ws2).1
      = (analyze_words_python ev ((ws1 ++ [⟨"RL", a1, a2, a3⟩]) ++ ws2)).1)
    ∧ ((analyze_words_python ev (ws1 ++ [⟨"RL", a1, a2, a3⟩])).2
        + (analyze_words_python
            ((analyze_words_python ev (ws1 ++ [⟨"RL", a1, a2, a3⟩])).1) ws2).2
      = (analyze_words_python ev ((ws1 ++ [⟨"RL", a1, a2, a3⟩]) ++ ws2)).2) := by
  have hcs : (analyzeFold ⟨ev, initClassifier, 0⟩ (ws1 ++ [⟨"RL", a1, a2, a3⟩])).cs
      = ⟨[], [], 0, 0⟩ := by
    unfold analyzeFold
    rw [List.foldl_append]
    exact analyzeStep_RL_resets _ a1 a2 a3
  rcases hst : analyzeFold ⟨ev, initClassifier, 0⟩ (ws1 ++ [⟨"RL", a1, a2, a3⟩])
    with ⟨e1, c1, n1⟩
  have hc1 : c1 = ⟨[], [], 0, 0⟩ := by rw [hst] at hcs; exact hcs
  subst hc1
  have hone : analyzeFold ⟨ev, initClassifier, 0⟩ ((ws1 ++ [⟨"RL", a1, a2, a3⟩]) ++ ws2)
      = ⟨(analyzeFold ⟨e1, ⟨[], [], 0, 0⟩, 0⟩ ws2).ev,
         (analyzeFold ⟨e1, ⟨[], [], 0, 0⟩, 0⟩ ws2).cs,
         n1 + (analyzeFold ⟨e1, ⟨[], [], 0, 0⟩, 0⟩ ws2).n⟩ := by
    have happ : analyzeFold ⟨ev, initClassifier, 0⟩ ((ws1 ++ [⟨"RL", a1, a2, a3⟩]) ++ ws2)
        = analyzeFold (analyzeFold ⟨ev, initClassifier, 0⟩ (ws1 ++ [⟨"RL", a1, a2, a3⟩])) ws2 := by
      unfold analyzeFold
      rw [List.foldl_append]
    rw [happ, hst]
    exact analyzeFold_shift ws2 e1 ⟨[], [], 0, 0⟩ n1
  constructor
  · show (analyzeFold
        ⟨(analyzeFold ⟨ev, initClassifier, 0⟩ (ws1 ++ [⟨"RL", a1, a2, a3⟩])).ev,
          initClassifier, 0⟩ ws2).ev
      = (analyzeFold ⟨ev, initClassifier, 0⟩ ((ws1 ++ [⟨"RL", a1, a2, a3⟩]) ++ ws2)).ev
    rw [hst, hone]
    rfl
  · show (analyzeFold ⟨ev, initClassifier, 0⟩ (ws1 ++ [⟨"RL", a1, a2, a3⟩])).n
        + (analyzeFold
            ⟨(analyzeFold ⟨ev, initClassifier, 0⟩ (ws1 ++ [⟨"RL", a1, a2, a3⟩])).ev,
              initClassifier, 0⟩ ws2).n
      = (analyzeFold ⟨ev, initClassifier, 0⟩ ((ws1 ++ [⟨"RL", a1, a2, a3⟩]) ++ ws2)).n
    rw [hst, hone]
    rfl

/-- C4 (counterexample to the claim as stated): the buffers and
counters are not carried between calls.  Splitting `[FL(1, 10), RL]`
into two calls loses the pending E, so the split run yields different
events than the single pass. -/
theorem classifier_state_not_external_counterexample :
    (analyze_words_python
        (analyze_words_python emptyEvents [⟨"FL", 1, 0, 10⟩]).1 [⟨"RL", 0, 0, 0⟩]).1
      ≠ (analyze_words_python emptyEvents [⟨"FL", 1, 0, 10⟩, ⟨"RL", 0, 0, 0⟩]).1 := by
  decide

theorem stepStreamer_chunk_invariant_witness :
    (0 < 1 ∧ 0 < 7 ∧ 0 < 10000)
      ∧ stepStreamChunks 1 convert_hptdc_group_data_decoded [2684354560, 5, 17]
          = convert_hptdc_group_data_decoded [2684354560, 5, 17]
      ∧ stepStreamChunks 7 convert_hptdc_group_data_decoded [2684354560, 5, 17]
          = convert_hptdc_group_data_decoded [2684354560, 5, 17]
      ∧ stepStreamChunks 10000 convert_hptdc_group_data_decoded [2684354560, 5, 17]
          = convert_hptdc_group_data_decoded [2684354560, 5, 17] :=
  ⟨⟨by decide, by decide, by decide⟩,
    (stepStreamer_chunk_invariant [2684354560, 5, 17] 1 (by decide)).2,
    (stepStreamer_chunk_invariant [2684354560, 5, 17] 7 (by decide)).2,
    (stepStreamer_chunk_invariant [2684354560, 5, 17] 10000 (by decide)).2⟩

/-- C5: for every file on which the header parse completes, the header
is accepted as modern (64-bit step entries, mode taken from the 4-byte
tag) exactly when the declared header_size is at most 4096 and the four
bytes after the declared header equal the section marker; otherwise the
17-byte legacy header re-read after the magic is used, with 32-bit step
entries and the mode byte mapping G to group mode and anything else to
hit mode. -/
theorem header_resolution_modern_iff (f : List Nat) (h : HeaderInfo)
    (hres : resolveHeader f = some h) :
    (h.is64 = true ↔ modernCond f)
      ∧ (modernCond f → h = modernHeader f)
      ∧ (¬ modernCond f → h = legacyHeader f) := by
  unfold resolveHeader at hres
  by_cases h1 : readBytes f 0 5 ≠ magicBytes
  · rw [if_pos h1] at hres; cases hres
  · rw [if_neg h1] at hres
    by_cases h2 : f.length < 41
    · rw [if_pos h2] at hres; cases hres
    · rw [if_neg h2] at hres
      by_cases h3 : 4096 < readIntD f 5 4
      · rw [if_pos h3] at hres
        injection hres with hh
        subst hh
        have hnc : ¬ modernCond f := by
          intro hc
          exact absurd hc.1 (by omega)
        exact ⟨by simp [hnc], fun hc => absurd hc hnc, fun _ => rfl⟩
      · rw [if_neg h3] at hres
        by_cases h4 : readBytes f (dataPosOf f) 4 = dataTag
        · rw [if_pos h4] at hres
          injection hres with hh
          subst hh
          have hc : modernCond f := ⟨by omega, h4⟩
          exact ⟨by simp [hc], fun _ => rfl, fun hx => absurd hc hx⟩
        · rw [if_neg h4] at hres
          injection hres with hh
          subst hh
          have hnc : ¬ modernCond f := fun hc => h4 hc.2
          exact ⟨by simp [hnc], fun hc => absurd hc hnc, fun _ => rfl⟩

theorem header_resolution_modern_iff_witness :
    resolveHeader sampleModernFile = some (modernHeader sampleModernFile)
      ∧ ((modernHeader sampleModernFile).is64 = true ↔ modernCond sampleModernFile) :=
  ⟨by decide,
    (header_resolution_modern_iff sampleModernFile (modernHeader sampleModernFile)
      (by decide)).1⟩

theorem checkRowsGo_pass (rows : List StepRow) (itemW : Nat) :
    ∀ (rem j : Nat), checkRowsGo rows itemW rem j = .pass →
      ∀ k, k < rem → ∃ hk : j + k < rows.length,
        0 ≤ (rows.get ⟨j + k, hk⟩).data_size
          ∧ (rows.get ⟨j + k, hk⟩).data_size % (itemW : Int) = 0 := by
  intro rem
  induction rem with
  | zero => intro j _ k hk; omega
  | succ rem ih =>
    intro j hpass k hk
    unfold checkRowsGo at hpass
    by_cases hj : j < rows.length
    · rw [dif_pos hj] at hpass
      by_cases hbad : (rows.get ⟨j, hj⟩).data_size < 0
          ∨ ¬ (rows.get ⟨j, hj⟩).data_size % (itemW : Int) = 0
      · rw [if_pos hbad] at hpass; cases hpass
      · rw [if_neg hbad] at hpass
        push_neg at hbad
        rcases k with _ | k
        · exact ⟨by omega, hbad.1, hbad.2⟩
        · have hres := ih (j + 1) hpass k (by omega)
          rcases hres with ⟨hlt, hp1, hp2⟩
          have harr : j + (k + 1) = j + 1 + k := by omega
          refine ⟨by omega, ?_, ?_⟩
          · simp only [harr]; exact hp1
          · simp only [harr]; exact hp2
    · rw [dif_neg hj] at hpass; cases hpass

theorem loadStepTablesGo_ok_valid (f : List Nat) (offW itemW : Nat) :
    ∀ (count pos : Nat) (ts : List (Int × List StepRow)),
      loadStepTablesGo f offW itemW count pos = .ok ts →
      ∀ p ∈ ts, checkRows p.2 itemW p.1.toNat = .pass := by
  intro count
  induction count with
  | zero =>
    intro pos ts hok p hp
    unfold loadStepTablesGo at hok
    injection hok with hh
    subst hh
    cases hp
  | succ count ih =>
    intro pos ts hok p hp
    unfold loadStepTablesGo at hok
    by_cases h8 : (readBytes f pos 8).length < 8
    · rw [if_pos h8] at hok; cases hok
    · rw [if_neg h8] at hok
      by_cases hmod : ¬ (scanRawBytes f pos).length % (32 + 2 * offW) = 0
      · rw [if_pos hmod] at hok; cases hok
      · rw [if_neg hmod] at hok
        rcases hchk : checkRows
            (parseRowsGo offW (scanRawBytes f pos).length (scanRawBytes f pos))
            itemW (readIntD f pos 4).toNat with _ | _ | _
        · simp only [hchk] at hok
          rcases hrec : loadStepTablesGo f offW itemW count
              (pos + 8 + (scanRawBytes f pos).length) with _ | _ | ts2
          · simp only [hrec] at hok
            cases hok
          · simp only [hrec] at hok
            cases hok
          · simp only [hrec] at hok
            injection hok with hh
            subst hh
            cases hp with
            | head => exact hchk
            | tail _ hp2 => exact ih _ ts2 hrec p hp2
        · simp only [hchk] at hok
          cases hok
        · simp only [hchk] at hok
          cases hok

/-- C6 (amended): a zero scan_table_offset forces the marker rebuild; an
invalid load (a row among the first declared step_count rows of some
scan with data_size negative or not a multiple of the record width)
discards every loaded table and forces the rebuild; and every table the
streamer actually uses has all rows below its declared step_count with
data_size non-negative and a multiple of the record width.  Rows beyond
the declared step_count are not validated. -/
theorem table_validity_gate :
    (∀ (f : List Nat) (sc : Int) (ig : Bool) (offW itemW : Nat),
        tableDecision f 0 sc ig offW itemW = .rebuilt)
      ∧ (∀ (f : List Nat) (sto sc : Int) (offW itemW : Nat),
          0 < sto → loadStepTables f sto.toNat sc offW itemW = .invalid →
          tableDecision f sto sc false offW itemW = .rebuilt)
      ∧ (∀ (f : List Nat) (sto sc : Int) (offW itemW : Nat)
            (ts : List (Int × List StepRow)),
          tableDecision f sto sc false offW itemW = .loaded ts →
          ∀ p ∈ ts, ∀ j : Nat, j < p.1.toNat →
            ∃ hj : j < p.2.length,
              0 ≤ (p.2.get ⟨j, hj⟩).data_size
                ∧ (p.2.get ⟨j, hj⟩).data_size % (itemW : Int) = 0) := by
  refine ⟨?_, ?_, ?_⟩
  · intro f sc ig offW itemW
    unfold tableDecision
    rw [if_neg (by simp)]
  · intro f sto sc offW itemW hsto hinv
    unfold tableDecision
    rw [if_pos ⟨hsto, rfl⟩]
    simp only [hinv]
  · intro f sto sc offW itemW ts hdec p hp j hj
    unfold tableDecision at hdec
    by_cases hcond : 0 < sto ∧ (false : Bool) = false
    · rw [if_pos hcond] at hdec
      rcases hload : loadStepTables f sto.toNat sc offW itemW with _ | _ | ts2
      · simp only [hload] at hdec
        cases hdec
      · simp only [hload] at hdec
        cases hdec
      · simp only [hload] at hdec
        injection hdec with hh
        subst hh
        have hpass := loadStepTablesGo_ok_valid f offW itemW sc.toNat sto.toNat ts2 hload p hp
        have hall := checkRowsGo_pass p.2 itemW p.1.toNat 0 hpass j hj
        simpa using hall
    · rw [if_neg hcond] at hdec
      cases hdec

/-- C6 (counterexample to the claim as stated): in
`sampleUncheckedRowFile` the single scan declares step_count 1 but its
table bytes hold two rows, and row 1 has data_size 10, which is not a
multiple of the 4-byte record width; the table is nevertheless loaded
and used, with no rebuild. -/
theorem unchecked_row_counterexample :
    tableDecision sampleUncheckedRowFile 1 1 false 4 4
        = .loaded [(1, [⟨List.replicate 32 0, 0, 8⟩, ⟨List.replicate 32 0, 0, 10⟩])]
      ∧ ¬ (10 : Int) % 4 = 0 :=
  ⟨by decide, by decide⟩

theorem table_validity_gate_witness :
    tableDecision sampleValidTableFile 0 1 false 4 4 = TableSource.rebuilt
      ∧ (∀ p ∈ [((1 : Int), [(⟨List.replicate 32 0, 0, 8⟩ : StepRow),
            ⟨List.replicate 32 0, 0, 12⟩])], ∀ j : Nat, j < p.1.toNat →
          ∃ hj : j < p.2.length,
            0 ≤ (p.2.get ⟨j, hj⟩).data_size
              ∧ (p.2.get ⟨j, hj⟩).data_size % ((4 : Nat) : Int) = 0) :=
  ⟨table_validity_gate.1 sampleValidTableFile 1 false 4 4,
    table_validity_gate.2.2 sampleValidTableFile 1 1 4 4
      [(1, [⟨List.replicate 32 0, 0, 8⟩, ⟨List.replicate 32 0, 0, 12⟩])]
      (by decide)⟩

theorem flatScans_headD (d : Int) (rest : List (Int × List Int)) :
    (flatScans rest).headD d = nextTerm d rest := by
  cases rest with
  | nil => rfl
  | cons p r => rcases p with ⟨m, ss⟩; rfl

theorem goReduce_steps (d : Int) :
    ∀ (ss : List Int), (∀ s ∈ ss, 0 ≤ s) →
      ∀ (rest : List Int) (ts : List (List StepEntry)) (cur : List StepEntry),
        goReduce d (ss ++ rest) (ts ++ [cur])
          = goReduce d rest (ts ++ [cur ++ entriesFor cur.length (rest.headD d) ss]) := by
  intro ss
  induction ss with
  | nil =>
    intro _ rest ts cur
    simp [entriesFor]
  | cons s ss2 ih =>
    intro hnn rest ts cur
    have hs : ¬ s < 0 := by
      have := hnn s (by simp)
      omega
    show goReduce d (s :: (ss2 ++ rest)) (ts ++ [cur]) = _
    rw [goReduce]
    rw [if_neg hs, List.getLast?_concat]
    simp only [List.dropLast_concat]
    have hih := ih (fun x hx => hnn x (by simp [hx])) rest ts
      (cur ++ [(⟨stepLabel cur.length, s, (ss2 ++ rest).headD d - s⟩ : StepEntry)])
    rw [hih]
    cases ss2 with
    | nil =>
      simp [entriesFor]
    | cons o2 r2 =>
      simp only [List.cons_append, List.headD_cons, List.length_append, List.length_cons,
        List.length_nil, entriesFor]
      rw [List.append_assoc]
      rfl

theorem goReduce_spec (d : Int) :
    ∀ (scans : List (Int × List Int)),
      (∀ p ∈ scans, p.1 < 0 ∧ ∀ s ∈ p.2, 0 ≤ s) →
      ∀ ts : List (List StepEntry),
        goReduce d (flatScans scans) ts = some (ts ++ specTables d scans) := by
  intro scans
  induction scans with
  | nil =>
    intro _ ts
    simp [flatScans, specTables, goReduce]
  | cons p rest ih =>
    intro hwf ts
    rcases p with ⟨m, ss⟩
    have hm : m < 0 := (hwf (m, ss) (by simp)).1
    have hss : ∀ s ∈ ss, (0 : Int) ≤ s := (hwf (m, ss) (by simp)).2
    show goReduce d (m :: (ss ++ flatScans rest)) ts = _
    rw [goReduce, if_pos hm]
    rw [goReduce_steps d ss hss (flatScans rest) ts []]
    rw [ih (fun q hq => hwf q (by simp [hq]))]
    rw [flatScans_headD]
    simp [specTables]

/-- C7 (amended): for every marker-offset list made of scan groups (a
negative scan marker entry followed by its non-negative step marker
offsets), the rebuilt table has one scan per negative entry; within each
scan the k-th step entry carries the synthetic label `str(float(k))`
(`"0.0"`, `"1.0"`, ...), a data_offset equal to that step marker's
absolute byte offset, and a data_size equal to the next entry of the
recorded marker list minus its offset — the stored (negated) value when
the next recorded marker is a scan marker — with the final step of the
final scan bounded by the effective table offset `data_end`. -/
theorem rebuild_table_contents (scans : List (Int × List Int)) (d : Int)
    (hwf : ∀ p ∈ scans, p.1 < 0 ∧ ∀ s ∈ p.2, 0 ≤ s) :
    reduceMarkers (flatScans scans) d = some (specTables d scans) := by
  unfold reduceMarkers
  simpa using goReduce_spec d scans hwf []

theorem rebuild_table_contents_witness :
    (∀ p ∈ [((-10 : Int), [(20 : Int)]), (-30, [40])], p.1 < 0 ∧ ∀ s ∈ p.2, (0 : Int) ≤ s)
      ∧ reduceMarkers (flatScans [((-10 : Int), [(20 : Int)]), (-30, [40])]) 100
          = some (specTables 100 [((-10 : Int), [(20 : Int)]), (-30, [40])]) :=
  ⟨by decide, rebuild_table_contents [((-10 : Int), [(20 : Int)]), (-30, [40])] 100 (by decide)⟩

/-- C7 (counterexample to the claim as stated): for the marker list
scan at 10, step at 20, scan at 30, step at 40 with data_end 100, the
first scan's only step gets label `"0.0"` (not `"0"`) and data_size
`-30 - 20 = -50` (not the distance 10 to the next recorded marker). -/
theorem rebuild_labels_sizes_counterexample :
    reduceMarkers [-10, 20, -30, 40] 100
        = some [[⟨"0.0", 20, -50⟩], [⟨"0.0", 40, 60⟩]]
      ∧ ¬ ("0.0" = "0") ∧ ¬ ((-50 : Int) = 10) :=
  ⟨by decide, by decide, by decide⟩

/-- C8 (code bug): the chunked scan is not window-size invariant.  When
a marker ends exactly at the end of the read buffer, the inner loop
exits with `buf_pos == len(buf)` without truncating the buffer, and the
next outer iteration rescans the whole buffer from position 0: the
stream `scan_marker ++ [0x01]` at absolute offset 5 with read window 8
yields the scan marker offset twice (`[-5, -5]`), while the single
left-to-right scan of the whole stream records it exactly once
(`[-5]`). -/
theorem marker_scan_boundary_duplicate :
    rebuildScan gScanMarker gStepMarker 8 (gScanMarker ++ [1]) 5 = some [-5, -5]
      ∧ refScanAll gScanMarker gStepMarker (gScanMarker ++ [1]) 5 = [-5]
      ∧ ([(-5 : Int), -5] ≠ [(-5 : Int)]) :=
  ⟨by decide, by decide, by decide⟩

theorem parseParamLines_some_iff (ls : List (List Nat)) :
    (∃ a, parseParamLines ls = some a)
      ↔ ∀ l ∈ ls, (splitOnByte 32 l).length = 2 := by
  induction ls with
  | nil => simp [parseParamLines]
  | cons l rest ih =>
    constructor
    · intro hex l2 hl2
      rcases hex with ⟨a, ha⟩
      unfold parseParamLines at ha
      rcases hsp : splitOnByte 32 l with _ | ⟨k, _ | ⟨v, _ | _⟩⟩
      all_goals rw [hsp] at ha
      · cases ha
      · cases ha
      · cases hl2 with
        | head => rw [hsp]; rfl
        | tail _ h2 =>
          rcases hrest : parseParamLines rest with _ | a2
          · rw [hrest] at ha; cases ha
          · exact (ih.mp ⟨a2, hrest⟩) l2 h2
      · cases ha
    · intro hall
      have hl : (splitOnByte 32 l).length = 2 := hall l (by simp)
      rcases hsp : splitOnByte 32 l with _ | ⟨k, _ | ⟨v, _ | _⟩⟩
      all_goals rw [hsp] at hl
      · cases hl
      · cases hl
      · have hrest := ih.mpr (fun l2 hl2 => hall l2 (by simp [hl2]))
        rcases hrest with ⟨a2, ha2⟩
        refine ⟨(k, v) :: a2, ?_⟩
        unfold parseParamLines
        rw [hsp, ha2]
        rfl
      · cases hl

/-- C9 (amended): an invalid (negative) parameter-table offset and
undecodable (non-ASCII) bytes are recovered: the parameter attributes
are omitted, a warning is emitted and the phase reports success; an
empty or falsy parameter block likewise warns and succeeds; well-formed
key-value lines are stored and the phase succeeds without warning; but
a line that does not split into exactly two space-separated fields
raises an uncaught error and processing of the file fails instead of
completing. -/
theorem param_block_recovery :
    (∀ (f : List Nat) (pto pts : Int), pto < 0 → paramPhase f pto pts = .ok (true, []))
      ∧ (∀ (f : List Nat) (pto pts : Int), ¬ pto < 0 →
          (rawParamBytes f pto pts).any (fun b => 128 ≤ b) = true →
          paramPhase f pto pts = .ok (true, []))
      ∧ (∀ (f : List Nat) (pto pts : Int), ¬ pto < 0 →
          (rawParamBytes f pto pts).any (fun b => 128 ≤ b) = false →
          (splitOnByte 10 (rawParamBytes f pto pts)).headD [] ≠ [] →
          (∀ l ∈ splitOnByte 10 (rawParamBytes f pto pts), (splitOnByte 32 l).length = 2) →
          ∃ attrs, paramPhase f pto pts = .ok (false, attrs))
      ∧ (∀ (f : List Nat) (pto pts : Int), ¬ pto < 0 →
          (rawParamBytes f pto pts).any (fun b => 128 ≤ b) = false →
          (splitOnByte 10 (rawParamBytes f pto pts)).headD [] ≠ [] →
          (∃ l ∈ splitOnByte 10 (rawParamBytes f pto pts), ¬ (splitOnByte 32 l).length = 2) →
          paramPhase f pto pts = .error ()) := by
  have hne : ∀ (f : List Nat) (pto pts : Int),
      (splitOnByte 10 (rawParamBytes f pto pts)).headD [] ≠ [] →
      splitOnByte 10 (rawParamBytes f pto pts) ≠ [] := by
    intro f pto pts hh hcon
    rw [hcon] at hh
    exact hh rfl
  refine ⟨?_, ?_, ?_, ?_⟩
  · intro f pto pts hneg
    unfold paramPhase
    rw [if_pos hneg]
  · intro f pto pts hpos hany
    unfold paramPhase
    rw [if_neg hpos, if_pos hany]
  · intro f pto pts hpos hany hhead hall
    unfold paramPhase
    rw [if_neg hpos, if_neg (by simp [hany]), if_pos ⟨hne f pto pts hhead, hhead⟩]
    rcases (parseParamLines_some_iff _).mpr hall with ⟨a, ha⟩
    rw [ha]
    exact ⟨a, rfl⟩
  · intro f pto pts hpos hany hhead hbad
    unfold paramPhase
    rw [if_neg hpos, if_neg (by simp [hany]), if_pos ⟨hne f pto pts hhead, hhead⟩]
    rcases hpl : parseParamLines (splitOnByte 10 (rawParamBytes f pto pts)) with _ | a
    · rfl
    · exfalso
      rcases hbad with ⟨l, hl, hlen⟩
      exact hlen ((parseParamLines_some_iff _).mp ⟨a, hpl⟩ l hl)

theorem param_block_recovery_witness :
    (¬ (0 : Int) < 0)
      ∧ ∃ attrs, paramPhase [97, 32, 98, 10, 99, 32, 100] 0 8 = .ok (false, attrs) :=
  ⟨by decide,
    param_block_recovery.2.2.1 [97, 32, 98, 10, 99, 32, 100] 0 8
      (by decide) (by decide) (by decide) (by decide)⟩

/-- C9 (counterexample to the claim as stated): a parameter block whose
single line `abc` has no space raises an uncaught `ValueError` in
`key, value = line.split(" ")`; the file processing fails rather than
completing with the parameters omitted. -/
theorem param_malformed_line_counterexample :
    paramPhase [97, 98, 99, 10] 0 5 = .error () := by
  rfl

end MetroEval
